import Mathlib

/-!
Verification of `scripts/balance-vidpid.py`.

The script defines a single function `balance_vidpid` on Python's
arbitrary-precision integers, plus a `main` that hex-formats each
command-line argument together with its balanced value.

Python's arbitrary-precision integers are embedded as `ℤ`.  Python's
bitwise operators on negative numbers follow the infinite two's-complement
convention, which is exactly the semantics of Mathlib's `Int.lor`,
`Int.land`, `Int.lnot` and of the `ShiftLeft ℤ` instance, so the
expression `(vidpid | ~vidpid << 16) & 0xffffffff` is embedded literally
with those operations.  `raise ValueError(...)` is embedded as
`Except.error` carrying the offending value.
-/

/-- Fuel-driven count of the set bits of a natural number; the fuel only
has to dominate the number itself for the recursion to bottom out. -/
def popcountFuel : Nat → Nat → Nat
  | 0, _ => 0
  | fuel + 1, n => if n = 0 then 0 else n % 2 + popcountFuel fuel (n / 2)

/-- Number of `1` bits of a natural number. -/
def natPopcount (n : Nat) : Nat :=
  popcountFuel n n

/-- Embedding of Python's `bin(v).count('1')`: `bin` renders the binary
digits of the absolute value (with a `0b` prefix and, for negatives, a
leading minus sign, neither of which contains the character `1`), so the
count is the number of set bits of the absolute value. -/
def popcount (v : Int) : Nat :=
  natPopcount v.natAbs

/-- Embedding of `balance_vidpid` from `scripts/balance-vidpid.py`:

    if vidpid != 0:
        if vidpid <= 0x00007fff:
            vidpid = (vidpid | ~vidpid << 16) & 0xffffffff
        else:
            if bin(vidpid).count('1') != 16:
                raise ValueError("...")
    return vidpid
-/
def balance_vidpid (vidpid : Int) : Except Int Int :=
  if vidpid ≠ 0 then
    if vidpid ≤ 0x00007fff then
      Except.ok (Int.land (Int.lor vidpid (Int.lnot vidpid <<< (16 : Int))) 0xffffffff)
    else
      if popcount vidpid ≠ 16 then
        Except.error vidpid
      else
        Except.ok vidpid
  else
    Except.ok vidpid

/-! ### Basic facts about `natPopcount` -/

theorem popcountFuel_zero (fuel : Nat) : popcountFuel fuel 0 = 0 := by
  cases fuel with
  | zero => rfl
  | succ g => simp [popcountFuel]

theorem popcountFuel_congr :
    ∀ f₁ f₂ n : Nat, n ≤ f₁ → n ≤ f₂ → popcountFuel f₁ n = popcountFuel f₂ n := by
  intro f₁
  induction f₁ with
  | zero =>
    intro f₂ n h₁ h₂
    have hn : n = 0 := Nat.le_zero.mp h₁
    subst hn
    rw [popcountFuel_zero, popcountFuel_zero]
  | succ g₁ ih =>
    intro f₂ n h₁ h₂
    by_cases hn : n = 0
    · subst hn
      rw [popcountFuel_zero, popcountFuel_zero]
    · cases f₂ with
      | zero => exact absurd (Nat.le_zero.mp h₂) hn
      | succ g₂ =>
        simp only [popcountFuel, if_neg hn]
        have hlt : n / 2 < n := Nat.div_lt_self (Nat.pos_of_ne_zero hn) (by norm_num)
        rw [ih g₂ (n / 2) (by omega) (by omega)]

theorem natPopcount_two_step (n : Nat) :
    natPopcount n = n % 2 + natPopcount (n / 2) := by
  cases n with
  | zero => rfl
  | succ m =>
    show popcountFuel (m + 1) (m + 1) = _
    simp only [popcountFuel, if_neg (Nat.succ_ne_zero m)]
    rw [popcountFuel_congr m ((m + 1) / 2) ((m + 1) / 2) (by omega) (Nat.le_refl _)]
    rfl

theorem natPopcount_bit (q r : Nat) (hr : r < 2) :
    natPopcount (2 * q + r) = r + natPopcount q := by
  rw [natPopcount_two_step]
  have h₁ : (2 * q + r) % 2 = r := by omega
  have h₂ : (2 * q + r) / 2 = q := by omega
  rw [h₁, h₂]

theorem natPopcount_split :
    ∀ (k : Nat), ∀ a b : Nat, a < 2 ^ k →
      natPopcount (a + b * 2 ^ k) = natPopcount a + natPopcount b := by
  intro k
  induction k with
  | zero =>
    intro a b ha
    have h : a = 0 := by omega
    subst h
    simp [natPopcount, popcountFuel]
  | succ k ih =>
    intro a b ha
    have hp : (2 : Nat) ^ (k + 1) = 2 * 2 ^ k := by ring
    have hb : b * 2 ^ (k + 1) = 2 * (b * 2 ^ k) := by ring
    have key : a + b * 2 ^ (k + 1) = 2 * (a / 2 + b * 2 ^ k) + a % 2 := by omega
    rw [key, natPopcount_bit _ _ (Nat.mod_lt a (by norm_num))]
    rw [ih (a / 2) b (by omega)]
    rw [natPopcount_two_step a]
    omega

theorem natPopcount_compl :
    ∀ (k : Nat), ∀ v : Nat, v < 2 ^ k →
      natPopcount v + natPopcount (2 ^ k - 1 - v) = k := by
  intro k
  induction k with
  | zero =>
    intro v hv
    have h : v = 0 := by omega
    subst h
    simp [natPopcount, popcountFuel]
  | succ k ih =>
    intro v hv
    have hp : (2 : Nat) ^ (k + 1) = 2 * 2 ^ k := by ring
    have hq : v / 2 < 2 ^ k := by omega
    have key : 2 ^ (k + 1) - 1 - v = 2 * (2 ^ k - 1 - v / 2) + (1 - v % 2) := by omega
    rw [key, natPopcount_bit _ _ (by omega), natPopcount_two_step v]
    have := ih (v / 2) hq
    omega

/-! ### The two `Nat.ldiff` computations behind the mirroring branch -/

theorem ldiff_low_part (v : Nat) (hv : v < 2 ^ 16) :
    Nat.ldiff (2 ^ 16 * v + (2 ^ 16 - 1)) v = 2 ^ 16 * v + (2 ^ 16 - (v + 1)) := by
  apply Nat.eq_of_testBit_eq
  intro j
  rw [Nat.testBit_ldiff,
    Nat.testBit_mul_pow_two_add v (by norm_num) j,
    Nat.testBit_mul_pow_two_add v (show 2 ^ 16 - (v + 1) < 2 ^ 16 by omega) j,
    Nat.testBit_two_pow_sub_one, Nat.testBit_two_pow_sub_succ hv]
  by_cases hj : j < 16
  · simp [hj]
  · have hvj : Nat.testBit v j = false :=
      Nat.testBit_lt_two_pow (lt_of_lt_of_le hv (Nat.pow_le_pow_right (by norm_num) (by omega)))
    simp [hj, hvj]

theorem ldiff_high_part (v : Nat) (hv : v < 2 ^ 16) :
    Nat.ldiff (2 ^ 32 - 1) (2 ^ 16 * v + (2 ^ 16 - (v + 1)))
      = 2 ^ 16 * (2 ^ 16 - (v + 1)) + v := by
  apply Nat.eq_of_testBit_eq
  intro j
  rw [Nat.testBit_ldiff, Nat.testBit_two_pow_sub_one,
    Nat.testBit_mul_pow_two_add v (show 2 ^ 16 - (v + 1) < 2 ^ 16 by omega) j,
    Nat.testBit_mul_pow_two_add (2 ^ 16 - (v + 1)) hv j,
    Nat.testBit_two_pow_sub_succ hv j, Nat.testBit_two_pow_sub_succ hv (j - 16)]
  by_cases hj : j < 16
  · have hj32 : j < 32 := by omega
    simp [hj, hj32]
  · by_cases hj32 : j < 32
    · have h16 : j - 16 < 16 := by omega
      simp [hj, hj32, h16]
    · have h16 : ¬ j - 16 < 16 := by omega
      simp [hj, hj32, h16]

/-! ### Evaluating the Python expression `(v | ~v << 16) & 0xffffffff` -/

theorem lnot_natCast (v : Nat) : Int.lnot (v : Int) = Int.negSucc v :=
  rfl

theorem shiftLeft_sixteen_negSucc (v : Nat) :
    Int.negSucc v <<< (16 : Int) = Int.negSucc (2 ^ 16 * v + (2 ^ 16 - 1)) := by
  have h := Int.shiftLeft_negSucc v 16
  have hs : Nat.shiftLeft' true v 16 = 2 ^ 16 * v + (2 ^ 16 - 1) := by
    have h1 := Nat.shiftLeft'_tt_eq_mul_pow v 16
    have hp : (2 : Nat) ^ 16 = 65536 := by norm_num
    rw [hp] at h1 ⊢
    omega
  rw [← hs]
  exact_mod_cast h

/-- The masked mirroring expression, evaluated: for `v < 2 ^ 16` the result
is the 32-bit value whose low 16 bits are `v` and whose high 16 bits are
the 16-bit one's complement of `v`. -/
theorem mirror_eval (v : Nat) (hv : v < 2 ^ 16) :
    Int.land (Int.lor (v : Int) (Int.lnot (v : Int) <<< (16 : Int))) 0xffffffff
      = ((2 ^ 16 * (2 ^ 16 - (v + 1)) + v : Nat) : Int) := by
  rw [lnot_natCast, shiftLeft_sixteen_negSucc]
  have step1 : Int.lor (v : Int) (Int.negSucc (2 ^ 16 * v + (2 ^ 16 - 1)))
      = Int.negSucc (Nat.ldiff (2 ^ 16 * v + (2 ^ 16 - 1)) v) := rfl
  rw [step1, ldiff_low_part v hv]
  have step2 : Int.land (Int.negSucc (2 ^ 16 * v + (2 ^ 16 - (v + 1)))) 0xffffffff
      = ((Nat.ldiff (2 ^ 32 - 1) (2 ^ 16 * v + (2 ^ 16 - (v + 1))) : Nat) : Int) := by
    have hm : (0xffffffff : Int) = ((2 ^ 32 - 1 : Nat) : Int) := by norm_num
    rw [hm]
    rfl
  rw [step2, ldiff_high_part v hv]

/-! ### Branch-level characterizations of `balance_vidpid` -/

theorem popcount_natCast (v : Nat) : popcount (v : Int) = natPopcount v := by
  simp [popcount]

theorem balance_vidpid_zero : balance_vidpid 0 = Except.ok 0 :=
  rfl

/-- On the mirroring branch (`v ≠ 0`, `v ≤ 0x7fff`) the function returns
the value with low half `v` and high half the one's complement of `v`. -/
theorem balance_vidpid_mirror (v : Nat) (h0 : v ≠ 0) (h7 : v ≤ 0x7fff) :
    balance_vidpid (v : Int)
      = Except.ok ((2 ^ 16 * (2 ^ 16 - (v + 1)) + v : Nat) : Int) := by
  have hz : (v : Int) ≠ 0 := by exact_mod_cast h0
  have hle : (v : Int) ≤ 0x00007fff := by exact_mod_cast h7
  rw [balance_vidpid, if_pos hz, if_pos hle, mirror_eval v (by omega)]

/-- Above the mirroring cut-off the function validates the Hamming weight
and otherwise passes the value through. -/
theorem balance_vidpid_big (v : Int) (h : ¬ v ≤ 0x7fff) :
    balance_vidpid v
      = if popcount v ≠ 16 then Except.error v else Except.ok v := by
  have hz : v ≠ 0 := by omega
  rw [balance_vidpid, if_pos hz, if_neg (by exact_mod_cast h)]

/-- The mirrored value has Hamming weight exactly 16. -/
theorem mirror_popcount (v : Nat) (hv : v < 2 ^ 16) :
    natPopcount (2 ^ 16 * (2 ^ 16 - (v + 1)) + v) = 16 := by
  have h1 : 2 ^ 16 * (2 ^ 16 - (v + 1)) + v = v + (2 ^ 16 - 1 - v) * 2 ^ 16 := by
    have hp : (2 : Nat) ^ 16 = 65536 := by norm_num
    rw [hp] at hv ⊢
    omega
  rw [h1, natPopcount_split 16 v (2 ^ 16 - 1 - v) hv]
  have := natPopcount_compl 16 v hv
  omega

/-! ### Claims about `balance_vidpid` -/

/-- C1: for every identifier in `[0, 0xffffffff]` on which `balance_vidpid`
returns a value, if that value is nonzero then its Hamming weight is
exactly 16. -/
theorem balanced_result_weight_sixteen (v : Nat) (hv : v ≤ 0xffffffff) (r : Int)
    (hok : balance_vidpid (v : Int) = Except.ok r) (hnz : r ≠ 0) :
    popcount r = 16 := by
  by_cases h0 : v = 0
  · subst h0
    rw [Nat.cast_zero, balance_vidpid_zero] at hok
    injection hok with h
    exact absurd h.symm hnz
  · by_cases h7 : v ≤ 0x7fff
    · rw [balance_vidpid_mirror v h0 h7] at hok
      injection hok with h
      have hv16 : v < 2 ^ 16 := lt_of_le_of_lt h7 (by norm_num)
      rw [← h, popcount_natCast, mirror_popcount v hv16]
    · rw [balance_vidpid_big _ (by exact_mod_cast h7)] at hok
      by_cases hp : popcount (v : Int) ≠ 16
      · rw [if_pos hp] at hok
        exact Except.noConfusion hok
      · rw [if_neg hp] at hok
        injection hok with h
        rw [← h]
        exact not_ne_iff.mp hp

theorem balanced_result_weight_sixteen_witness :
    (0xFFFF0000 : Nat) ≤ 0xffffffff ∧ ((0xFFFF0000 : Nat) : Int) ≠ 0 ∧
      popcount ((0xFFFF0000 : Nat) : Int) = 16 :=
  ⟨by norm_num, by decide,
    balanced_result_weight_sixteen 0xFFFF0000 (by norm_num) _ rfl (by decide)⟩

/-- C2: on `[1, 0x7fff]` the function returns exactly the masked mirroring
expression `(v | ~v << 16) & 0xffffffff`; the result is the 32-bit value
whose low 16 bits are `v` and whose high 16 bits are the 16-bit one's
complement of `v`, its Hamming weight is 16, and in particular
`balance_vidpid 0x1234 = 0xEDCB1234`. -/
theorem mirror_branch_formula (v : Nat) (h1 : 1 ≤ v) (h2 : v ≤ 0x7fff) :
    balance_vidpid (v : Int)
        = Except.ok (Int.land (Int.lor (v : Int) (Int.lnot (v : Int) <<< (16 : Int)))
            0xffffffff) ∧
    (∃ R : Nat, balance_vidpid (v : Int) = Except.ok ((R : Nat) : Int) ∧
      R < 4294967296 ∧ R % 65536 = v ∧ R / 65536 = 65535 - v ∧ natPopcount R = 16) ∧
    balance_vidpid ((0x1234 : Nat) : Int) = Except.ok ((0xEDCB1234 : Nat) : Int) := by
  have h0 : v ≠ 0 := by omega
  have hz : (v : Int) ≠ 0 := by exact_mod_cast h0
  have hle : (v : Int) ≤ 0x00007fff := by exact_mod_cast h2
  have hv16 : v < 2 ^ 16 := lt_of_le_of_lt h2 (by norm_num)
  have hp : (2 : Nat) ^ 16 = 65536 := by norm_num
  refine ⟨?_, ⟨2 ^ 16 * (2 ^ 16 - (v + 1)) + v, balance_vidpid_mirror v h0 h2,
    by omega, by omega, by omega, mirror_popcount v hv16⟩, ?_⟩
  · rw [balance_vidpid, if_pos hz, if_pos hle]
  · rw [balance_vidpid_mirror 0x1234 (by norm_num) (by norm_num)]
    norm_num

theorem mirror_branch_formula_witness :
    1 ≤ (0x1234 : Nat) ∧ (0x1234 : Nat) ≤ 0x7fff ∧
      balance_vidpid ((0x1234 : Nat) : Int) = Except.ok ((0xEDCB1234 : Nat) : Int) :=
  ⟨by norm_num, by norm_num,
    (mirror_branch_formula 0x1234 (by norm_num) (by norm_num)).2.2⟩

/-- C3: on `[0x8000, 0xffffffff]` the function fails, with the error value
being the input itself, exactly when the input's Hamming weight is not 16;
and no input in `[0, 0xffffffff]` reaches any other error. -/
theorem validation_error_iff_bad_weight (v : Nat) (hv : v ≤ 0xffffffff) :
    (0x8000 ≤ v →
      (balance_vidpid (v : Int) = Except.error (v : Int) ↔ popcount (v : Int) ≠ 16)) ∧
    (∀ e : Int, balance_vidpid (v : Int) = Except.error e →
      0x8000 ≤ v ∧ popcount (v : Int) ≠ 16 ∧ e = (v : Int)) := by
  constructor
  · intro h8
    have hbig : ¬ (v : Int) ≤ 0x7fff := by exact_mod_cast (show ¬ v ≤ 0x7fff by omega)
    rw [balance_vidpid_big _ hbig]
    constructor
    · intro he
      by_cases hp : popcount (v : Int) ≠ 16
      · exact hp
      · rw [if_neg hp] at he
        exact Except.noConfusion he
    · intro hp
      rw [if_pos hp]
  · intro e he
    by_cases h0 : v = 0
    · subst h0
      rw [Nat.cast_zero, balance_vidpid_zero] at he
      exact Except.noConfusion he
    · by_cases h7 : v ≤ 0x7fff
      · rw [balance_vidpid_mirror v h0 h7] at he
        exact Except.noConfusion he
      · have hbig : ¬ (v : Int) ≤ 0x7fff := by exact_mod_cast h7
        rw [balance_vidpid_big _ hbig] at he
        by_cases hp : popcount (v : Int) ≠ 16
        · rw [if_pos hp] at he
          injection he with h
          exact ⟨by omega, hp, h.symm⟩
        · rw [if_neg hp] at he
          exact Except.noConfusion he

theorem validation_error_iff_bad_weight_witness :
    (0x8000 ≤ (0x8000 : Nat) →
      (balance_vidpid ((0x8000 : Nat) : Int) = Except.error ((0x8000 : Nat) : Int) ↔
        popcount ((0x8000 : Nat) : Int) ≠ 16)) ∧
    (∀ e : Int, balance_vidpid ((0x8000 : Nat) : Int) = Except.error e →
      0x8000 ≤ (0x8000 : Nat) ∧ popcount ((0x8000 : Nat) : Int) ≠ 16 ∧
        e = ((0x8000 : Nat) : Int)) :=
  validation_error_iff_bad_weight 0x8000 (by norm_num)

/-- C4: every already-balanced 32-bit value (Hamming weight 16, in
`[0x8000, 0xffffffff]`) passes through unchanged; in particular
`balance_vidpid 0xFFFF0000 = 0xFFFF0000`. -/
theorem identity_on_balanced_values (v : Nat) (h8 : 0x8000 ≤ v) (hv : v ≤ 0xffffffff)
    (hp : popcount (v : Int) = 16) :
    balance_vidpid (v : Int) = Except.ok (v : Int) ∧
    balance_vidpid ((0xFFFF0000 : Nat) : Int) = Except.ok ((0xFFFF0000 : Nat) : Int) := by
  refine ⟨?_, rfl⟩
  rw [balance_vidpid_big _ (by exact_mod_cast (show ¬ v ≤ 0x7fff by omega)),
    if_neg (not_ne_iff.mpr hp)]

theorem identity_on_balanced_values_witness :
    0x8000 ≤ (0xFFFF0000 : Nat) ∧ (0xFFFF0000 : Nat) ≤ 0xffffffff ∧
      popcount ((0xFFFF0000 : Nat) : Int) = 16 ∧
      balance_vidpid ((0xFFFF0000 : Nat) : Int) = Except.ok ((0xFFFF0000 : Nat) : Int) :=
  ⟨by norm_num, by norm_num, by decide,
    (identity_on_balanced_values 0xFFFF0000 (by norm_num) (by norm_num) (by decide)).1⟩

/-- C5: `balance_vidpid 0` returns `0` unchanged and raises no error. -/
theorem balance_zero_unchanged : balance_vidpid 0 = Except.ok 0 :=
  rfl

/-- C6: whenever `balance_vidpid` succeeds on an input in
`[0, 0xffffffff]`, running it again on the result succeeds and returns the
result unchanged. -/
theorem balance_idempotent (v : Nat) (hv : v ≤ 0xffffffff) (r : Int)
    (hok : balance_vidpid (v : Int) = Except.ok r) :
    balance_vidpid r = Except.ok r := by
  by_cases h0 : v = 0
  · subst h0
    rw [Nat.cast_zero, balance_vidpid_zero] at hok
    injection hok with h
    rw [← h]
    exact balance_vidpid_zero
  · by_cases h7 : v ≤ 0x7fff
    · rw [balance_vidpid_mirror v h0 h7] at hok
      injection hok with h
      rw [← h]
      have hv16 : v < 2 ^ 16 := lt_of_le_of_lt h7 (by norm_num)
      have hp : (2 : Nat) ^ 16 = 65536 := by norm_num
      have hbigR : ¬ ((2 ^ 16 * (2 ^ 16 - (v + 1)) + v : Nat) : Int) ≤ 0x7fff := by
        exact_mod_cast (show ¬ (2 ^ 16 * (2 ^ 16 - (v + 1)) + v : Nat) ≤ 0x7fff by omega)
      rw [balance_vidpid_big _ hbigR, popcount_natCast,
        if_neg (not_ne_iff.mpr (mirror_popcount v hv16))]
    · have hbig : ¬ (v : Int) ≤ 0x7fff := by exact_mod_cast h7
      rw [balance_vidpid_big _ hbig] at hok
      by_cases hp : popcount (v : Int) ≠ 16
      · rw [if_pos hp] at hok
        exact Except.noConfusion hok
      · rw [if_neg hp] at hok
        injection hok with h
        rw [← h, balance_vidpid_big _ hbig, if_neg hp]

theorem balance_idempotent_witness :
    (0xFFFF0000 : Nat) ≤ 0xffffffff ∧
      balance_vidpid ((0xFFFF0000 : Nat) : Int) = Except.ok ((0xFFFF0000 : Nat) : Int) :=
  ⟨by norm_num, balance_idempotent 0xFFFF0000 (by norm_num) _ rfl⟩

/-- C7: the mirroring branch covers exactly the identifiers up to `0x7fff`;
the boundary value `0x8000` instead goes through the Hamming-weight
validation and, having weight 1, fails with the validation error. -/
theorem mirror_boundary_exclusive (v : Nat) (h1 : 1 ≤ v) (h2 : v ≤ 0x7fff) :
    balance_vidpid (v : Int)
        = Except.ok ((2 ^ 16 * (2 ^ 16 - (v + 1)) + v : Nat) : Int) ∧
    balance_vidpid ((0x8000 : Nat) : Int) = Except.error ((0x8000 : Nat) : Int) ∧
    popcount ((0x8000 : Nat) : Int) = 1 :=
  ⟨balance_vidpid_mirror v (by omega) h2, rfl, by decide⟩

theorem mirror_boundary_exclusive_witness :
    balance_vidpid ((1 : Nat) : Int)
        = Except.ok ((2 ^ 16 * (2 ^ 16 - (1 + 1)) + 1 : Nat) : Int) ∧
    balance_vidpid ((0x8000 : Nat) : Int) = Except.error ((0x8000 : Nat) : Int) ∧
    popcount ((0x8000 : Nat) : Int) = 1 :=
  mirror_boundary_exclusive 1 (by norm_num) (by norm_num)

/-- C9: the function is deterministic, its outcome a function of the
argument alone: equal inputs give equal outcomes.  Side-effect freedom
holds by construction of the embedding, which threads no state. -/
theorem balance_deterministic (v w : Int) (h : v = w) :
    balance_vidpid v = balance_vidpid w :=
  congrArg balance_vidpid h

theorem balance_deterministic_witness :
    balance_vidpid 0x1234 = balance_vidpid 0x1234 :=
  balance_deterministic 0x1234 0x1234 rfl

/-- C10: the 32-bit input range is not enforced: any input above
`0xffffffff` whose Hamming weight is 16 is returned unchanged, unmasked,
so the result still exceeds 32 bits. -/
theorem no_upper_range_check (v : Nat) (h : 0xffffffff < v)
    (hp : popcount (v : Int) = 16) :
    balance_vidpid (v : Int) = Except.ok (v : Int) ∧ (0xffffffff : Int) < (v : Int) := by
  constructor
  · rw [balance_vidpid_big _ (by exact_mod_cast (show ¬ v ≤ 0x7fff by omega)),
      if_neg (not_ne_iff.mpr hp)]
  · exact_mod_cast h

theorem no_upper_range_check_witness :
    0xffffffff < (0xFFFF00000 : Nat) ∧
      (balance_vidpid ((0xFFFF00000 : Nat) : Int) = Except.ok ((0xFFFF00000 : Nat) : Int) ∧
        (0xffffffff : Int) < ((0xFFFF00000 : Nat) : Int)) :=
  ⟨by norm_num, no_upper_range_check 0xFFFF00000 (by norm_num) (by decide)⟩

/-! ### The output line of `main` -/

/-- Lowercase hexadecimal digit character, as Python's `x` format code
produces: `0`..`9` then `a`..`f`. -/
def hexDigitChar (d : Nat) : Char :=
  if d < 10 then Char.ofNat (48 + d) else Char.ofNat (87 + d)

/-- Fuel-driven most-significant-first hexadecimal digit list of `n`
(empty for `0`). -/
def hexDigitsFuel : Nat → Nat → List Char
  | 0, _ => []
  | fuel + 1, n =>
    if n = 0 then [] else hexDigitsFuel fuel (n / 16) ++ [hexDigitChar (n % 16)]

/-- The hexadecimal digit string of a natural number, as Python renders
it: no leading zeros, except that `0` itself renders as `0`. -/
def hexDigits (n : Nat) : List Char :=
  if n = 0 then ['0'] else hexDigitsFuel n n

/-- Embedding of Python's `"{:#08x}".format(n)` for nonnegative `n`: the
alternate form inserts the prefix `0x`, and the zero-padding brings the
TOTAL width, prefix included, up to 8 characters, so at most 6 zero-padded
hex digits follow the prefix. -/
def formatHash08x (n : Nat) : String :=
  String.mk ('0' :: 'x' :: (List.replicate (8 - (2 + (hexDigits n).length)) '0' ++ hexDigits n))

/-- One iteration of the loop in `main` for an argument whose hexadecimal
parse succeeded with value `val`: the line printed by
`print("{:#08x} => {:#08x}".format(val, balance_vidpid(val)))`, or `none`
when `balance_vidpid` raises (the exception escapes `main` and no line is
printed for that argument).  Successful results of nonnegative inputs are
nonnegative, so the balanced value prints through its `toNat`. -/
def mainLine (val : Nat) : Option String :=
  match balance_vidpid (val : Int) with
  | Except.ok b => some (formatHash08x val ++ " => " ++ formatHash08x b.toNat)
  | Except.error _ => none

/-- The format the claim C8 describes, taken at its word: the value in
hexadecimal zero-padded to 8 hex digits (keeping the code's `0x` prefix
style), so the digit field itself has width 8. -/
def claimFormat8Digits (n : Nat) : String :=
  String.mk ('0' :: 'x' :: (List.replicate (8 - (hexDigits n).length) '0' ++ hexDigits n))

/-- The line shape claimed by C8 for a successful argument. -/
def claimLineC8 (val bal : Nat) : String :=
  claimFormat8Digits val ++ " => " ++ claimFormat8Digits bal

theorem mainLine_of_ok (val : Nat) (b : Int)
    (hok : balance_vidpid (val : Int) = Except.ok b) :
    mainLine val = some (formatHash08x val ++ " => " ++ formatHash08x b.toNat) := by
  unfold mainLine
  rw [hok]

/-- C8 counterexample: for the successfully balanced argument `0x1234` the
program prints `0x001234 => 0xedcb1234` — the original value is padded to
a total width of 8 characters including the `0x` prefix, i.e. only 6 hex
digits — which is not the 8-hex-digit padding the claim states. -/
theorem printed_line_not_eight_digits :
    mainLine 0x1234 = some ("0x001234 => 0xedcb1234") ∧
    claimLineC8 0x1234 0xEDCB1234 = "0x00001234 => 0xedcb1234" ∧
    mainLine 0x1234 ≠ some (claimLineC8 0x1234 0xEDCB1234) := by
  have hok : balance_vidpid ((0x1234 : Nat) : Int) = Except.ok ((0xEDCB1234 : Nat) : Int) := by
    rw [balance_vidpid_mirror 0x1234 (by norm_num) (by norm_num)]
    norm_num
  have hm := mainLine_of_ok 0x1234 ((0xEDCB1234 : Nat) : Int) hok
  rw [hm]
  refine ⟨?_, ?_, ?_⟩ <;> decide

/-- C8 (amended): for each command-line argument that parses and balances
successfully the program prints one line `⟨original⟩ => ⟨balanced⟩`, each
value in lowercase hexadecimal with a `0x` prefix, zero-padded to a
minimum TOTAL width of 8 characters counting the prefix (thus at least 6
hex digits), not to 8 hex digits. -/
theorem printed_line_format (val : Nat) (b : Int)
    (hok : balance_vidpid (val : Int) = Except.ok b) :
    mainLine val = some (formatHash08x val ++ " => " ++ formatHash08x b.toNat) ∧
    formatHash08x 0x1234 = "0x001234" ∧
    formatHash08x 0xEDCB1234 = "0xedcb1234" ∧
    (formatHash08x 0x1234).length = 8 ∧ (formatHash08x 0 ).length = 8 :=
  ⟨mainLine_of_ok val b hok, by decide, by decide, by decide, by decide⟩

theorem printed_line_format_witness :
    balance_vidpid ((0xFFFF0000 : Nat) : Int) = Except.ok ((0xFFFF0000 : Nat) : Int) ∧
    (mainLine 0xFFFF0000
        = some (formatHash08x 0xFFFF0000 ++ " => "
            ++ formatHash08x (((0xFFFF0000 : Nat) : Int)).toNat) ∧
      formatHash08x 0x1234 = "0x001234" ∧
      formatHash08x 0xEDCB1234 = "0xedcb1234" ∧
      (formatHash08x 0x1234).length = 8 ∧ (formatHash08x 0 ).length = 8) :=
  ⟨rfl, printed_line_format 0xFFFF0000 ((0xFFFF0000 : Nat) : Int) rfl⟩
